import Mathlib

/-!
# Verification of the gpu-cloud task dispatch and worker load-balancing core

This file is a shallow embedding, in Lean 4, of the task dispatch / worker
load-balancing subsystem of the `gpu-cloud` repository:

* `backend/src/services/taskQueue.ts` (class `TaskQueue`): `enqueue`,
  `waitForCompletion`, `resolveTask`, `rejectTask`, `processQueue`,
  `getAvailableWorkers`, `selectBestWorker`, `assignTaskToWorker`,
  `simulateTaskProcessing`.
* `backend/src/services/store.ts` (class `DataStore`): the in-memory maps of
  workers and tasks together with their accessors and updaters.
* `backend/src/services/workerManager.ts` (class `WorkerManager`):
  `createWorker`, `removeWorker`, the heartbeat simulation tick, and
  `getWorkerStats`.

Modelling conventions:

* JavaScript is single threaded and the dispatch code only yields at `await`
  points that queue microtasks, so every operation (an `enqueue` together with
  the scheduling pass it triggers, one `setTimeout` completion callback, one
  heartbeat tick, ...) runs to completion atomically.  The embedding therefore
  models the system as a state type `QState` with one total Lean function per
  operation, and the set of reachable states as the closure of the initial
  empty state under those operations (`Reachable`).
* `Map<string, T>` iterates in insertion order; it is modelled as a Lean
  `List T` where `set` on a fresh key appends, `set` on an existing key
  replaces in place, and `delete` filters.
* `uuidv4()` identifiers and `new Date()` timestamps are modelled by a single
  monotone counter `nextId` (uuids are fresh, dates are monotone; no claim
  depends on more than that).
* `Array.prototype.sort` is stable (ECMAScript 2019); both call sites
  (`getPendingTasks`, `selectBestWorker`) are modelled by a stable insertion
  sort with the same comparator.  The load ratio `currentLoad / maxCapacity`
  is IEEE double division in the source; it is modelled by exact rational
  division, which agrees with the source on every comparison the claims touch
  (the dispatcher only ever compares ratios of workers that passed the
  `currentLoad < maxCapacity` filter, so denominators are positive).
* `setTimeout` callbacks are modelled as events: the completion callback armed
  by `simulateTaskProcessing` is recorded in `QState.timers` and fired by
  `fireCompletionTimer`; the waiter-timeout callback armed by
  `waitForCompletion` is modelled by `waiterTimeoutFire`, which is a no-op
  unless a waiter is still registered, exactly like the guarded callback in
  the source.
* The `processing` reentrancy flag of `TaskQueue.processQueue` is the
  identity under this run-to-completion semantics (the flag is set on entry
  and cleared in the `finally` before anything else can observe it, and
  nothing inside the pass calls `processQueue`), so it is not part of the
  state.
* Fields that no modelled operation reads or that no claim mentions
  (`hostname`, `gpuInfo` telemetry, `supportedModels`, `lastHeartbeat`,
  `payload`, `type`) are omitted; the opaque resolution payload
  `{ success: true, workerId }` is modelled by the worker id.
-/

namespace GpuCloud

/-- `WorkerNode.status`: `'online' | 'offline' | 'busy'` (`types/index.ts`). -/
inductive WStatus where
  | online
  | offline
  | busy
deriving DecidableEq, Repr

/-- `InferenceTask.status`:
`'pending' | 'assigned' | 'processing' | 'completed' | 'failed'`. -/
inductive TStatus where
  | pending
  | assigned
  | processing
  | completed
  | failed
deriving DecidableEq, Repr

/-- The fields of `WorkerNode` (`types/index.ts`) read or written by the
dispatch core.  Loads are integers: JavaScript numbers under `+ 1` and
`Math.max(0, x - 1)`. -/
structure WorkerNode where
  id : Nat
  status : WStatus
  currentLoad : Int
  maxCapacity : Int
deriving DecidableEq, Repr

/-- The fields of `InferenceTask` (`types/index.ts`) read or written by the
dispatch core.  `result` is an opaque stored payload (`Option Nat`), `error`
the stored error string. -/
structure InferenceTask where
  id : Nat
  apiKeyId : Nat
  priority : Int
  status : TStatus
  assignedWorker : Option Nat
  result : Option Nat
  error : Option String
  createdAt : Nat
  startedAt : Option Nat
  completedAt : Option Nat
deriving DecidableEq, Repr

/-- The mutable state of the dispatch core: the `DataStore` maps of workers
and tasks, the `TaskQueue.taskCallbacks` waiter map (only the key set is
observable: a continuation is modelled by the event value returned when it is
invoked), the armed `setTimeout` completion callbacks of
`simulateTaskProcessing` (pairs `(taskId, workerId)`), and the fresh-id /
clock counter. -/
structure QState where
  workers : List WorkerNode
  tasks : List InferenceTask
  callbacks : List Nat
  timers : List (Nat × Nat)
  nextId : Nat
deriving DecidableEq, Repr

/-- The state at process start: empty store, no waiters, no timers. -/
def initState : QState :=
  { workers := [], tasks := [], callbacks := [], timers := [], nextId := 0 }

/-! ## DataStore operations (`store.ts`) -/

/-- `DataStore.getTask`: lookup by id. -/
def getTask (s : QState) (id : Nat) : Option InferenceTask :=
  s.tasks.find? (fun t => t.id = id)

/-- `DataStore.getWorker`: lookup by id. -/
def getWorker (s : QState) (id : Nat) : Option WorkerNode :=
  s.workers.find? (fun w => w.id = id)

/-- `DataStore.updateTask id updates`: merge `updates` into the stored task,
in place (a `Map.set` on an existing key keeps its position); no-op if the id
is absent.  Each call site passes its concrete update as `f`. -/
def updateTask (s : QState) (id : Nat) (f : InferenceTask → InferenceTask) : QState :=
  { s with tasks := s.tasks.map (fun t => if t.id = id then f t else t) }

/-- `DataStore.updateWorker id updates`, analogously. -/
def updateWorker (s : QState) (id : Nat) (f : WorkerNode → WorkerNode) : QState :=
  { s with workers := s.workers.map (fun w => if w.id = id then f w else w) }

/-- `DataStore.removeWorker`: `Map.delete`. -/
def storeRemoveWorker (s : QState) (id : Nat) : QState :=
  { s with workers := s.workers.filter (fun w => w.id ≠ id) }

/-- `DataStore.getOnlineWorkers`: workers with `status === 'online'`. -/
def getOnlineWorkers (s : QState) : List WorkerNode :=
  s.workers.filter (fun w => w.status = WStatus.online)

/-- Stable insertion of a task into a list sorted by `priority` descending:
`x` goes in front of the first element whose priority is not strictly
greater.  Together with `sortByPriorityDesc` this is the unique stable sort
for the comparator `(a, b) => b.priority - a.priority`. -/
def insertByPriority (x : InferenceTask) : List InferenceTask → List InferenceTask
  | [] => [x]
  | y :: ys => if x.priority < y.priority then y :: insertByPriority x ys else x :: y :: ys

/-- Stable sort by `priority` descending, modelling
`.sort((a, b) => b.priority - a.priority)` (stable per ECMAScript 2019). -/
def sortByPriorityDesc : List InferenceTask → List InferenceTask
  | [] => []
  | x :: xs => insertByPriority x (sortByPriorityDesc xs)

/-- `DataStore.getPendingTasks`: pending tasks, sorted by priority
descending; ties keep map insertion order (= enqueue order). -/
def getPendingTasks (s : QState) : List InferenceTask :=
  sortByPriorityDesc (s.tasks.filter (fun t => t.status = TStatus.pending))

/-! ## TaskQueue operations (`taskQueue.ts`) -/

/-- `TaskQueue.getAvailableWorkers`: online workers with
`currentLoad < maxCapacity`. -/
def getAvailableWorkers (s : QState) : List WorkerNode :=
  (getOnlineWorkers s).filter (fun w => w.currentLoad < w.maxCapacity)

/-- The load ratio `currentLoad / maxCapacity` used by `selectBestWorker`,
as an exact rational (see the header for the float-division caveat).
`Rat.divInt` is the kernel-computable integer division into `ℚ`;
`loadRatio_eq_div` below shows it is the ordinary quotient. -/
def loadRatio (w : WorkerNode) : ℚ :=
  Rat.divInt w.currentLoad w.maxCapacity

lemma loadRatio_eq_div (w : WorkerNode) :
    loadRatio w = (w.currentLoad : ℚ) / (w.maxCapacity : ℚ) :=
  Rat.divInt_eq_div w.currentLoad w.maxCapacity

/-- Stable insertion into a list sorted by load ratio ascending: `x` goes in
front of the first element whose ratio is not strictly smaller. -/
def insertByRatio (x : WorkerNode) : List WorkerNode → List WorkerNode
  | [] => [x]
  | y :: ys => if loadRatio y < loadRatio x then y :: insertByRatio x ys else x :: y :: ys

/-- Stable sort by load ratio ascending, modelling the in-place
`workers.sort((a, b) => ratioA - ratioB)` of `selectBestWorker`. -/
def sortByRatio : List WorkerNode → List WorkerNode
  | [] => []
  | x :: xs => insertByRatio x (sortByRatio xs)

/-- `TaskQueue.selectBestWorker`: `null` on an empty pool, else `sorted[0]`
of the ratio sort. -/
def selectBestWorker (workers : List WorkerNode) : Option WorkerNode :=
  (sortByRatio workers).head?

/-- `TaskQueue.resolveTask taskId result`: if a waiter is registered, invoke
its `resolve` continuation (the returned `some result` event) and delete the
entry; otherwise a silent no-op (`none`). -/
def resolveTask (s : QState) (taskId : Nat) (result : Nat) : QState × Option Nat :=
  if taskId ∈ s.callbacks then
    ({ s with callbacks := s.callbacks.filter (fun c => c ≠ taskId) }, some result)
  else
    (s, none)

/-- `TaskQueue.rejectTask taskId error`: if a waiter is registered, invoke its
`reject` continuation with `new Error(error)` (the returned `some error`
event) and delete the entry; otherwise a silent no-op. -/
def rejectTask (s : QState) (taskId : Nat) (error : String) : QState × Option String :=
  if taskId ∈ s.callbacks then
    ({ s with callbacks := s.callbacks.filter (fun c => c ≠ taskId) }, some error)
  else
    (s, none)

/-- The guarded waiter-timeout callback armed by `waitForCompletion`: if the
waiter for `taskId` is still registered, delete it and reject the caller with
the timeout error (`true`); otherwise do nothing (`false`). -/
def waiterTimeoutFire (s : QState) (taskId : Nat) : QState × Bool :=
  if taskId ∈ s.callbacks then
    ({ s with callbacks := s.callbacks.filter (fun c => c ≠ taskId) }, true)
  else
    (s, false)

/-- The immediate outcome of `TaskQueue.waitForCompletion` for the caller. -/
inductive WaitOutcome where
  | notFound
  | resolvedNow (r : Option Nat)
  | rejectedNow (e : String)
  | registered
deriving DecidableEq, Repr

/-- `TaskQueue.waitForCompletion taskId`: reject `Task not found` on an
unknown id; resolve immediately with the stored `task.result` if already
`completed`; reject immediately with the stored error (default
`"Task failed"`) if already `failed`; otherwise register the waiter (and arm
the timeout timer, modelled by `waiterTimeoutFire`). -/
def waitForCompletion (s : QState) (taskId : Nat) : QState × WaitOutcome :=
  match getTask s taskId with
  | none => (s, WaitOutcome.notFound)
  | some t =>
    if t.status = TStatus.completed then
      (s, WaitOutcome.resolvedNow t.result)
    else if t.status = TStatus.failed then
      (s, WaitOutcome.rejectedNow (t.error.getD "Task failed"))
    else
      ({ s with callbacks :=
          if taskId ∈ s.callbacks then s.callbacks else taskId :: s.callbacks },
       WaitOutcome.registered)

/-- The synchronous prefix of `TaskQueue.simulateTaskProcessing`: set
`status = 'processing'` and `startedAt`, then arm the completion
`setTimeout` (recorded in `timers`; latency only affects firing order, which
is left to the event relation). -/
def simulateTaskProcessing (s : QState) (t : InferenceTask) (w : WorkerNode) : QState :=
  let s1 := updateTask s t.id (fun u =>
    { u with status := TStatus.processing, startedAt := some s.nextId })
  { s1 with timers := s1.timers ++ [(t.id, w.id)] }

/-- The body of the completion `setTimeout` in `simulateTaskProcessing`:
set `status = 'completed'` and `completedAt` (note: no `result` is stored),
re-read the worker and, if it still exists, clamp-decrement its load, then
notify a waiting promise with `{ success: true, workerId }`. -/
def completionCallback (s : QState) (taskId workerId : Nat) : QState × Option Nat :=
  let s1 := updateTask s taskId (fun u =>
    { u with status := TStatus.completed, completedAt := some s.nextId })
  let s2 :=
    match getWorker s1 workerId with
    | some uw => updateWorker s1 workerId (fun u =>
        { u with currentLoad := max 0 (uw.currentLoad - 1) })
    | none => s1
  resolveTask s2 taskId workerId

/-- Firing one armed completion timer: remove it from the pending set and run
`completionCallback`. -/
def fireCompletionTimer (s : QState) (taskId workerId : Nat) : QState × Option Nat :=
  completionCallback { s with timers := s.timers.erase (taskId, workerId) } taskId workerId

/-- `TaskQueue.assignTaskToWorker`: mark the task assigned to the worker,
increment the worker's load (using the pool snapshot's `currentLoad`, as the
source does), and start simulated processing. -/
def assignTaskToWorker (s : QState) (t : InferenceTask) (w : WorkerNode) : QState :=
  let s1 := updateTask s t.id (fun u =>
    { u with status := TStatus.assigned, assignedWorker := some w.id })
  let s2 := updateWorker s1 w.id (fun u => { u with currentLoad := w.currentLoad + 1 })
  simulateTaskProcessing s2 t w

/-- The `for (const task of pendingTasks)` loop of `TaskQueue.processQueue`:
break when the pool is empty; otherwise `selectBestWorker` sorts the pool in
place and returns its head, the task is assigned to it, and the splice of the
selected worker leaves the tail of the sorted pool for the next round. -/
def processQueueLoop (s : QState) : List InferenceTask → List WorkerNode → QState
  | [], _ => s
  | task :: rest, avail =>
    match sortByRatio avail with
    | [] => s
    | w :: availRest => processQueueLoop (assignTaskToWorker s task w) rest availRest

/-- `TaskQueue.processQueue`: snapshot the pending tasks and the available
pool, then run the greedy assignment loop.  The `processing` reentrancy flag
is the identity under run-to-completion semantics (see header). -/
def processQueue (s : QState) : QState :=
  processQueueLoop s (getPendingTasks s) (getAvailableWorkers s)

/-- `TaskQueue.enqueue`: create a `pending` task with a fresh id, add it to
the store, trigger a scheduling pass, and return the task id. -/
def enqueue (s : QState) (apiKeyId : Nat) (priority : Int) : QState × Nat :=
  let t : InferenceTask :=
    { id := s.nextId, apiKeyId := apiKeyId, priority := priority,
      status := TStatus.pending, assignedWorker := none, result := none,
      error := none, createdAt := s.nextId, startedAt := none, completedAt := none }
  (processQueue { s with tasks := s.tasks ++ [t], nextId := s.nextId + 1 }, t.id)

/-! ## WorkerManager operations (`workerManager.ts`) -/

/-- The `baseThroughput` column of the `GPU_MODELS` catalog
(A100, H100, RTX 4090, RTX A6000). -/
def baseThroughputs : List Int := [100, 150, 60, 70]

/-- `WorkerManager.createWorker`: a fresh worker with status `'online'`,
zero load, and `maxCapacity = Math.floor(baseThroughput / 10)` for the
catalog entry picked by the random index `g` (universally quantified in the
reachability relation). -/
def createWorker (s : QState) (g : Nat) : QState × WorkerNode :=
  let w : WorkerNode :=
    { id := s.nextId, status := WStatus.online, currentLoad := 0,
      maxCapacity := (baseThroughputs.getD (g % 4) 100) / 10 }
  ({ s with workers := s.workers ++ [w], nextId := s.nextId + 1 }, w)

/-- `WorkerManager.removeWorker`: delegate to the store's `Map.delete`,
returning whether the worker existed. -/
def removeWorker (s : QState) (id : Nat) : QState × Bool :=
  (storeRemoveWorker s id, s.workers.any (fun w => w.id = id))

/-- The status mutation of one heartbeat tick for one worker: with 2%
probability (the oracle bit `toggle`) set
`worker.status === 'online' ? 'offline' : 'online'`; else keep the status. -/
def heartbeatStatus (st : WStatus) (toggle : Bool) : WStatus :=
  if toggle then (if st = WStatus.online then WStatus.offline else WStatus.online) else st

/-- One tick of `startHeartbeatSimulation`: every worker independently gets
its status mutation (the random draw per worker is the oracle `toggle`,
keyed by worker id); telemetry drift and `lastHeartbeat` refresh touch only
fields outside this embedding; `currentLoad` and `maxCapacity` are not
touched. -/
def heartbeatTick (s : QState) (toggle : Nat → Bool) : QState :=
  { s with workers := s.workers.map (fun w =>
      { w with status := heartbeatStatus w.status (toggle w.id) }) }

/-- The status counters of `WorkerManager.getWorkerStats` (the GPU-memory and
utilization aggregates live on omitted telemetry fields). -/
structure WorkerStats where
  total : Nat
  online : Nat
  offline : Nat
  busy : Nat
deriving DecidableEq, Repr

/-- `WorkerManager.getWorkerStats`: counts by status. -/
def getWorkerStats (s : QState) : WorkerStats :=
  { total := s.workers.length,
    online := (s.workers.filter (fun w => w.status = WStatus.online)).length,
    offline := (s.workers.filter (fun w => w.status = WStatus.offline)).length,
    busy := (s.workers.filter (fun w => w.status = WStatus.busy)).length }

/-! ## Reachable states

The closure of the initial state under the operations of the core, with
`setTimeout` callbacks fired at any later point (completion timers only if
armed).  `resolveStep`/`rejectStep` are the external calls made by
`inference.ts` on upstream success/failure. -/

inductive Reachable : QState → Prop where
  | init : Reachable initState
  | createWorkerStep (s : QState) (g : Nat) :
      Reachable s → Reachable (createWorker s g).1
  | removeWorkerStep (s : QState) (id : Nat) :
      Reachable s → Reachable (removeWorker s id).1
  | enqueueStep (s : QState) (apiKeyId : Nat) (priority : Int) :
      Reachable s → Reachable (enqueue s apiKeyId priority).1
  | waitStep (s : QState) (taskId : Nat) :
      Reachable s → Reachable (waitForCompletion s taskId).1
  | completionStep (s : QState) (taskId workerId : Nat) :
      Reachable s → (taskId, workerId) ∈ s.timers →
      Reachable (fireCompletionTimer s taskId workerId).1
  | waiterTimeoutStep (s : QState) (taskId : Nat) :
      Reachable s → Reachable (waiterTimeoutFire s taskId).1
  | heartbeatStep (s : QState) (toggle : Nat → Bool) :
      Reachable s → Reachable (heartbeatTick s toggle)
  | resolveStep (s : QState) (taskId result : Nat) :
      Reachable s → Reachable (resolveTask s taskId result).1
  | rejectStep (s : QState) (taskId : Nat) (error : String) :
      Reachable s → Reachable (rejectTask s taskId error).1

/-! ## Sorting lemmas -/

lemma insertByRatio_perm (x : WorkerNode) (l : List WorkerNode) :
    (insertByRatio x l).Perm (x :: l) := by
  induction l with
  | nil => exact List.Perm.refl _
  | cons y ys ih =>
    by_cases h : loadRatio y < loadRatio x
    · simp only [insertByRatio, if_pos h]
      exact (List.Perm.cons y ih).trans (List.Perm.swap x y ys)
    · simp only [insertByRatio, if_neg h]
      exact List.Perm.refl _

lemma sortByRatio_perm (l : List WorkerNode) : (sortByRatio l).Perm l := by
  induction l with
  | nil => exact List.Perm.refl _
  | cons x xs ih =>
    exact (insertByRatio_perm x (sortByRatio xs)).trans (List.Perm.cons x ih)

/-- The head of the stable ratio sort is the first minimum of the input: it
occurs in the input, every element strictly before that occurrence has a
strictly larger ratio, and no element anywhere has a smaller one. -/
lemma sortByRatio_head_firstMin :
    ∀ (l : List WorkerNode) (w : WorkerNode) (t : List WorkerNode),
      sortByRatio l = w :: t →
      (∃ l1 l2, l = l1 ++ w :: l2 ∧ ∀ v ∈ l1, loadRatio w < loadRatio v) ∧
      (∀ v ∈ l, loadRatio w ≤ loadRatio v) := by
  intro l
  induction l with
  | nil => intro w t h; simp [sortByRatio] at h
  | cons x xs ih =>
    intro w t h
    simp only [sortByRatio] at h
    rcases hs : sortByRatio xs with _ | ⟨h0, t0⟩
    · have hxs : xs = [] := by
        have hp := sortByRatio_perm xs
        rw [hs] at hp
        exact (List.Perm.nil_eq hp).symm
      subst hxs
      rw [hs] at h
      simp only [insertByRatio, List.cons.injEq] at h
      refine ⟨⟨[], [], by simp [h.1], by simp⟩, ?_⟩
      intro v hv
      simp only [List.mem_singleton] at hv
      subst hv
      exact le_of_eq (by rw [h.1])
    · rw [hs] at h
      obtain ⟨⟨l1, l2, hdec, hl1⟩, hmin⟩ := ih h0 t0 hs
      by_cases hlt : loadRatio h0 < loadRatio x
      · simp only [insertByRatio, if_pos hlt, List.cons.injEq] at h
        obtain ⟨hw, -⟩ := h
        subst hw
        refine ⟨⟨x :: l1, l2, by simp [hdec], ?_⟩, ?_⟩
        · intro v hv
          rcases List.mem_cons.mp hv with hv | hv
          · subst hv; exact hlt
          · exact hl1 v hv
        · intro v hv
          rcases List.mem_cons.mp hv with hv | hv
          · subst hv; exact le_of_lt hlt
          · exact hmin v hv
      · simp only [insertByRatio, if_neg hlt, List.cons.injEq] at h
        obtain ⟨hw, -⟩ := h
        subst hw
        refine ⟨⟨[], xs, by simp, by simp⟩, ?_⟩
        intro v hv
        rcases List.mem_cons.mp hv with hv | hv
        · subst hv; exact le_refl _
        · exact le_trans (not_lt.mp hlt) (hmin v hv)

lemma insertByPriority_perm (x : InferenceTask) (l : List InferenceTask) :
    (insertByPriority x l).Perm (x :: l) := by
  induction l with
  | nil => exact List.Perm.refl _
  | cons y ys ih =>
    by_cases h : x.priority < y.priority
    · simp only [insertByPriority, if_pos h]
      exact (List.Perm.cons y ih).trans (List.Perm.swap x y ys)
    · simp only [insertByPriority, if_neg h]
      exact List.Perm.refl _

lemma sortByPriorityDesc_perm (l : List InferenceTask) :
    (sortByPriorityDesc l).Perm l := by
  induction l with
  | nil => exact List.Perm.refl _
  | cons x xs ih =>
    exact (insertByPriority_perm x (sortByPriorityDesc xs)).trans (List.Perm.cons x ih)

/-- The scheduling order produced by `getPendingTasks`: strictly higher
priority first, ties in strictly increasing `createdAt` (= enqueue) order. -/
def schedRel (a b : InferenceTask) : Prop :=
  b.priority < a.priority ∨ (a.priority = b.priority ∧ a.createdAt < b.createdAt)

lemma insertByPriority_pairwise (x : InferenceTask) (l : List InferenceTask)
    (hl : l.Pairwise schedRel) (hx : ∀ y ∈ l, x.createdAt < y.createdAt) :
    (insertByPriority x l).Pairwise schedRel := by
  induction l with
  | nil => simp [insertByPriority]
  | cons y ys ih =>
    rcases List.pairwise_cons.mp hl with ⟨hy, hys⟩
    by_cases h : x.priority < y.priority
    · simp only [insertByPriority, if_pos h]
      refine List.pairwise_cons.mpr ⟨?_, ih hys (fun z hz => hx z (List.mem_cons_of_mem y hz))⟩
      intro z hz
      have hz' : z ∈ x :: ys := (insertByPriority_perm x ys).mem_iff.mp hz
      rcases List.mem_cons.mp hz' with hz' | hz'
      · subst hz'; exact Or.inl h
      · exact hy z hz'
    · simp only [insertByPriority, if_neg h]
      refine List.pairwise_cons.mpr ⟨?_, hl⟩
      intro z hz
      rcases List.mem_cons.mp hz with hz | hz
      · subst hz
        rcases lt_or_eq_of_le (not_lt.mp h) with hp | hp
        · exact Or.inl hp
        · exact Or.inr ⟨hp.symm, hx _ (List.mem_cons_self _ _)⟩
      · rcases hy z hz with hp | ⟨hp, -⟩
        · rcases lt_or_eq_of_le (not_lt.mp h) with hq | hq
          · exact Or.inl (lt_trans hp hq)
          · exact Or.inl (hq ▸ hp)
        · rcases lt_or_eq_of_le (not_lt.mp h) with hq | hq
          · exact Or.inl (hp ▸ hq)
          · exact Or.inr ⟨hq.symm.trans hp, hx z (List.mem_cons_of_mem y hz)⟩

lemma sortByPriorityDesc_pairwise (l : List InferenceTask)
    (h : l.Pairwise (fun a b => a.createdAt < b.createdAt)) :
    (sortByPriorityDesc l).Pairwise schedRel := by
  induction l with
  | nil => simp [sortByPriorityDesc]
  | cons x xs ih =>
    rcases List.pairwise_cons.mp h with ⟨hx, hxs⟩
    exact insertByPriority_pairwise x (sortByPriorityDesc xs) (ih hxs)
      (fun y hy => hx y ((sortByPriorityDesc_perm xs).mem_iff.mp hy))

/-! ## The state invariant and its preservation -/

/-- The master invariant of reachable states: worker loads stay within
`[0, maxCapacity]`, capacities are positive, no worker is ever `busy`,
worker ids are fresh and duplicate-free, no task ever carries a stored
`result` or `error`, and tasks sit in the store in strictly increasing
`createdAt` (= enqueue) order. -/
structure Inv (s : QState) : Prop where
  wload : ∀ w ∈ s.workers, 0 ≤ w.currentLoad ∧ w.currentLoad ≤ w.maxCapacity
  wcap : ∀ w ∈ s.workers, 0 < w.maxCapacity
  wbusy : ∀ w ∈ s.workers, w.status ≠ WStatus.busy
  wfresh : ∀ w ∈ s.workers, w.id < s.nextId
  wnodup : s.workers.Pairwise (fun a b => a.id ≠ b.id)
  tclean : ∀ t ∈ s.tasks, t.result = none ∧ t.error = none
  tfresh : ∀ t ∈ s.tasks, t.createdAt < s.nextId
  tmono : s.tasks.Pairwise (fun a b => a.createdAt < b.createdAt)

lemma inv_init : Inv initState := by
  constructor <;> simp [initState]

/-- The invariant mentions only `workers`, `tasks` and `nextId`; changing
`callbacks` or `timers` preserves it. -/
lemma inv_of_parts {s s' : QState} (h : Inv s) (hw : s'.workers = s.workers)
    (ht : s'.tasks = s.tasks) (hn : s'.nextId = s.nextId) : Inv s' := by
  refine ⟨?_, ?_, ?_, ?_, ?_, ?_, ?_, ?_⟩
  · rw [hw]; exact h.wload
  · rw [hw]; exact h.wcap
  · rw [hw]; exact h.wbusy
  · rw [hw, hn]; exact h.wfresh
  · rw [hw]; exact h.wnodup
  · rw [ht]; exact h.tclean
  · rw [ht, hn]; exact h.tfresh
  · rw [ht]; exact h.tmono

/-- In a duplicate-free worker list, an id determines its entry. -/
lemma id_unique {l : List WorkerNode}
    (hnd : l.Pairwise (fun a b => a.id ≠ b.id)) {a e : WorkerNode}
    (ha : a ∈ l) (he : e ∈ l) (hid : e.id = a.id) : e = a := by
  by_contra hne
  exact List.Pairwise.forall (fun {x y} h => (h ∘ Eq.symm : y.id ≠ x.id)) hnd he ha hne hid

/-- `updateTask` with an update that keeps `createdAt`, `result` and `error`
(every call site of `store.updateTask` in the dispatch core does) preserves
the invariant. -/
lemma inv_updateTask {s : QState} (h : Inv s) (id : Nat)
    (f : InferenceTask → InferenceTask)
    (hf : ∀ t, (f t).createdAt = t.createdAt ∧ (f t).result = t.result ∧
      (f t).error = t.error) :
    Inv (updateTask s id f) := by
  have htasks : ∀ t' ∈ (updateTask s id f).tasks, ∃ t ∈ s.tasks,
      t' = if t.id = id then f t else t := by
    intro t' ht'
    simp only [updateTask, List.mem_map] at ht'
    obtain ⟨t, ht, rfl⟩ := ht'
    exact ⟨t, ht, rfl⟩
  have hca : ∀ t, (if t.id = id then f t else t).createdAt = t.createdAt := by
    intro t; split
    · exact (hf t).1
    · rfl
  refine ⟨?_, ?_, ?_, ?_, ?_, ?_, ?_, ?_⟩
  · exact h.wload
  · exact h.wcap
  · exact h.wbusy
  · exact h.wfresh
  · exact h.wnodup
  · intro t' ht'
    obtain ⟨t, ht, rfl⟩ := htasks t' ht'
    rcases h.tclean t ht with ⟨hr, he⟩
    split
    · exact ⟨(hf t).2.1.trans hr, (hf t).2.2.trans he⟩
    · exact ⟨hr, he⟩
  · intro t' ht'
    obtain ⟨t, ht, rfl⟩ := htasks t' ht'
    rw [hca t]
    exact h.tfresh t ht
  · simp only [updateTask]
    exact (List.pairwise_map.mpr (by
      refine h.tmono.imp_of_mem ?_
      intro a b _ _ hab
      rw [hca a, hca b]
      exact hab))

/-- `updateWorker` setting the load of worker `wid` to a value that respects
the bounds of every entry carrying that id preserves the invariant. -/
lemma inv_updateLoad {s : QState} (h : Inv s) (wid : Nat) (newLoad : Int)
    (hb : ∀ e ∈ s.workers, e.id = wid → 0 ≤ newLoad ∧ newLoad ≤ e.maxCapacity) :
    Inv (updateWorker s wid (fun u => { u with currentLoad := newLoad })) := by
  have hworkers : ∀ w' ∈ (updateWorker s wid
      (fun u => { u with currentLoad := newLoad })).workers, ∃ w ∈ s.workers,
      w' = if w.id = wid then { w with currentLoad := newLoad } else w := by
    intro w' hw'
    simp only [updateWorker, List.mem_map] at hw'
    obtain ⟨w, hw, rfl⟩ := hw'
    exact ⟨w, hw, rfl⟩
  have hid : ∀ w : WorkerNode,
      (if w.id = wid then { w with currentLoad := newLoad } else w).id = w.id := by
    intro w; split <;> rfl
  refine ⟨?_, ?_, ?_, ?_, ?_, ?_, ?_, ?_⟩
  · intro w' hw'
    obtain ⟨w, hw, rfl⟩ := hworkers w' hw'
    split
    · next heq => exact hb w hw heq
    · exact h.wload w hw
  · intro w' hw'
    obtain ⟨w, hw, rfl⟩ := hworkers w' hw'
    split
    · exact h.wcap w hw
    · exact h.wcap w hw
  · intro w' hw'
    obtain ⟨w, hw, rfl⟩ := hworkers w' hw'
    split
    · exact h.wbusy w hw
    · exact h.wbusy w hw
  · intro w' hw'
    obtain ⟨w, hw, rfl⟩ := hworkers w' hw'
    rw [hid w]
    exact h.wfresh w hw
  · simp only [updateWorker]
    exact (List.pairwise_map.mpr (by
      refine h.wnodup.imp_of_mem ?_
      intro a b _ _ hab
      rw [hid a, hid b]
      exact hab))
  · exact h.tclean
  · exact h.tfresh
  · exact h.tmono

lemma inv_resolveTask {s : QState} (h : Inv s) (tid v : Nat) :
    Inv (resolveTask s tid v).1 := by
  simp only [resolveTask]
  split
  · exact inv_of_parts h rfl rfl rfl
  · exact h

lemma inv_rejectTask {s : QState} (h : Inv s) (tid : Nat) (e : String) :
    Inv (rejectTask s tid e).1 := by
  simp only [rejectTask]
  split
  · exact inv_of_parts h rfl rfl rfl
  · exact h

lemma inv_waiterTimeoutFire {s : QState} (h : Inv s) (tid : Nat) :
    Inv (waiterTimeoutFire s tid).1 := by
  simp only [waiterTimeoutFire]
  split
  · exact inv_of_parts h rfl rfl rfl
  · exact h

lemma inv_waitForCompletion {s : QState} (h : Inv s) (tid : Nat) :
    Inv (waitForCompletion s tid).1 := by
  simp only [waitForCompletion]
  rcases getTask s tid with _ | t
  · exact h
  · simp only
    split
    · exact h
    · split
      · exact h
      · exact inv_of_parts h rfl rfl rfl

lemma inv_completionCallback {s : QState} (h : Inv s) (tid wid : Nat) :
    Inv (completionCallback s tid wid).1 := by
  have h1 : Inv (updateTask s tid (fun u =>
      { u with status := TStatus.completed, completedAt := some s.nextId })) :=
    inv_updateTask h tid _ (fun t => ⟨rfl, rfl, rfl⟩)
  simp only [completionCallback]
  rcases hgw : getWorker (updateTask s tid (fun u =>
      { u with status := TStatus.completed, completedAt := some s.nextId })) wid
    with _ | uw
  · exact inv_resolveTask h1 tid wid
  · have huwmem : uw ∈ (updateTask s tid (fun u =>
        { u with status := TStatus.completed, completedAt := some s.nextId })).workers :=
      List.mem_of_find?_eq_some hgw
    have huwid : uw.id = wid := by
      have := List.find?_some hgw
      exact of_decide_eq_true this
    refine inv_resolveTask (inv_updateLoad h1 wid (max 0 (uw.currentLoad - 1)) ?_) tid wid
    intro e he heid
    have he' : e = uw := id_unique h1.wnodup huwmem he (heid.trans huwid.symm)
    subst he'
    have hl := h1.wload e huwmem
    have hc := h1.wcap e huwmem
    omega

lemma inv_fireCompletionTimer {s : QState} (h : Inv s) (tid wid : Nat) :
    Inv (fireCompletionTimer s tid wid).1 :=
  inv_completionCallback (s := { s with timers := s.timers.erase (tid, wid) })
    (inv_of_parts h rfl rfl rfl) tid wid

lemma assignTaskToWorker_workers (s : QState) (task : InferenceTask) (w : WorkerNode) :
    (assignTaskToWorker s task w).workers =
      s.workers.map (fun e =>
        if e.id = w.id then { e with currentLoad := w.currentLoad + 1 } else e) := rfl

lemma assignTaskToWorker_nextId (s : QState) (task : InferenceTask) (w : WorkerNode) :
    (assignTaskToWorker s task w).nextId = s.nextId := rfl

lemma inv_assignTaskToWorker {s : QState} (h : Inv s) (task : InferenceTask)
    (w : WorkerNode) (hwb : 0 ≤ w.currentLoad ∧ w.currentLoad < w.maxCapacity)
    (hcorr : ∀ e ∈ s.workers, e.id = w.id → e = w) :
    Inv (assignTaskToWorker s task w) := by
  have h1 : Inv (updateTask s task.id (fun u =>
      { u with status := TStatus.assigned, assignedWorker := some w.id })) :=
    inv_updateTask h task.id _ (fun t => ⟨rfl, rfl, rfl⟩)
  have h2 : Inv (updateWorker (updateTask s task.id (fun u =>
      { u with status := TStatus.assigned, assignedWorker := some w.id })) w.id
      (fun u => { u with currentLoad := w.currentLoad + 1 })) := by
    refine inv_updateLoad h1 w.id (w.currentLoad + 1) ?_
    intro e he heid
    have he' : e = w := hcorr e he heid
    subst he'
    omega
  have h3 : Inv (updateTask (updateWorker (updateTask s task.id (fun u =>
      { u with status := TStatus.assigned, assignedWorker := some w.id })) w.id
      (fun u => { u with currentLoad := w.currentLoad + 1 })) task.id (fun u =>
      { u with status := TStatus.processing,
               startedAt := some (updateWorker (updateTask s task.id (fun u =>
                 { u with status := TStatus.assigned,
                          assignedWorker := some w.id })) w.id
                 (fun u => { u with currentLoad := w.currentLoad + 1 })).nextId })) :=
    inv_updateTask h2 task.id _ (fun t => ⟨rfl, rfl, rfl⟩)
  exact inv_of_parts h3 rfl rfl rfl

lemma processQueueLoop_inv :
    ∀ (pend : List InferenceTask) (avail : List WorkerNode) (s : QState),
      Inv s →
      (∀ a ∈ avail, 0 ≤ a.currentLoad ∧ a.currentLoad < a.maxCapacity) →
      (∀ a ∈ avail, ∀ e ∈ s.workers, e.id = a.id → e = a) →
      avail.Pairwise (fun a b => a.id ≠ b.id) →
      Inv (processQueueLoop s pend avail) := by
  intro pend
  induction pend with
  | nil =>
    intro avail s h _ _ _
    exact h
  | cons task rest ih =>
    intro avail s h hbound hcorr hnd
    simp only [processQueueLoop]
    rcases hs : sortByRatio avail with _ | ⟨w, availRest⟩
    · exact h
    · have hperm := sortByRatio_perm avail
      rw [hs] at hperm
      have hmemS : ∀ a ∈ w :: availRest, a ∈ avail := fun a ha => hperm.mem_iff.mp ha
      have hndS : (w :: availRest).Pairwise (fun a b => a.id ≠ b.id) :=
        (hperm.pairwise_iff (fun {x y} hxy => hxy ∘ Eq.symm)).mpr hnd
      rcases List.pairwise_cons.mp hndS with ⟨hwRest, hndRest⟩
      have hwav : w ∈ avail := hmemS w (List.mem_cons_self _ _)
      have hinv' : Inv (assignTaskToWorker s task w) :=
        inv_assignTaskToWorker h task w (hbound w hwav) (fun e he => hcorr w hwav e he)
      refine ih availRest (assignTaskToWorker s task w) hinv' ?_ ?_ hndRest
      · intro a ha
        exact hbound a (hmemS a (List.mem_cons_of_mem w ha))
      · intro a ha e' he' hid'
        rw [assignTaskToWorker_workers] at he'
        obtain ⟨e, he, rfl⟩ := List.mem_map.mp he'
        by_cases hew : e.id = w.id
        · exfalso
          rw [if_pos hew] at hid'
          exact hwRest a ha (hew ▸ hid' : w.id = a.id).symm.symm
        · rw [if_neg hew] at hid' ⊢
          exact hcorr a (hmemS a (List.mem_cons_of_mem w ha)) e he hid'

lemma inv_processQueue {s : QState} (h : Inv s) : Inv (processQueue s) := by
  refine processQueueLoop_inv (getPendingTasks s) (getAvailableWorkers s) s h ?_ ?_ ?_
  · intro a ha
    simp only [getAvailableWorkers, getOnlineWorkers, List.mem_filter] at ha
    rcases ha with ⟨⟨ham, -⟩, hlt⟩
    exact ⟨(h.wload a ham).1, of_decide_eq_true hlt⟩
  · intro a ha e he hid
    simp only [getAvailableWorkers, getOnlineWorkers, List.mem_filter] at ha
    exact id_unique h.wnodup ha.1.1 he hid
  · exact h.wnodup.sublist
      ((List.filter_sublist _).trans (List.filter_sublist _))

lemma capacity_pos (g : Nat) : 0 < (baseThroughputs.getD (g % 4) 100) / 10 := by
  have h4 : g % 4 = 0 ∨ g % 4 = 1 ∨ g % 4 = 2 ∨ g % 4 = 3 := by omega
  rcases h4 with h | h | h | h <;> rw [h] <;> decide

lemma inv_createWorker {s : QState} (h : Inv s) (g : Nat) :
    Inv (createWorker s g).1 := by
  refine ⟨?_, ?_, ?_, ?_, ?_, ?_, ?_, ?_⟩
  · intro w hw
    rcases List.mem_append.mp hw with hw | hw
    · exact h.wload w hw
    · rcases List.mem_singleton.mp hw with rfl
      exact ⟨le_refl _, le_of_lt (capacity_pos g)⟩
  · intro w hw
    rcases List.mem_append.mp hw with hw | hw
    · exact h.wcap w hw
    · rcases List.mem_singleton.mp hw with rfl
      exact capacity_pos g
  · intro w hw
    rcases List.mem_append.mp hw with hw | hw
    · exact h.wbusy w hw
    · rcases List.mem_singleton.mp hw with rfl
      simp
  · intro w hw
    rcases List.mem_append.mp hw with hw | hw
    · exact Nat.lt_succ_of_lt (h.wfresh w hw)
    · rcases List.mem_singleton.mp hw with rfl
      exact Nat.lt_succ_self _
  · refine List.pairwise_append.mpr ⟨h.wnodup, List.pairwise_singleton _ _, ?_⟩
    intro a ha b hb
    rcases List.mem_singleton.mp hb with rfl
    exact Nat.ne_of_lt (h.wfresh a ha)
  · exact h.tclean
  · intro t ht
    exact Nat.lt_succ_of_lt (h.tfresh t ht)
  · exact h.tmono

lemma inv_removeWorker {s : QState} (h : Inv s) (id : Nat) :
    Inv (removeWorker s id).1 := by
  refine ⟨?_, ?_, ?_, ?_, ?_, h.tclean, h.tfresh, h.tmono⟩
  · intro w hw
    exact h.wload w (List.mem_of_mem_filter hw)
  · intro w hw
    exact h.wcap w (List.mem_of_mem_filter hw)
  · intro w hw
    exact h.wbusy w (List.mem_of_mem_filter hw)
  · intro w hw
    exact h.wfresh w (List.mem_of_mem_filter hw)
  · exact h.wnodup.sublist (List.filter_sublist _)

lemma inv_heartbeatTick {s : QState} (h : Inv s) (toggle : Nat → Bool) :
    Inv (heartbeatTick s toggle) := by
  have hmem : ∀ w' ∈ (heartbeatTick s toggle).workers, ∃ w ∈ s.workers,
      w' = { w with status := heartbeatStatus w.status (toggle w.id) } := by
    intro w' hw'
    simp only [heartbeatTick, List.mem_map] at hw'
    obtain ⟨w, hw, rfl⟩ := hw'
    exact ⟨w, hw, rfl⟩
  refine ⟨?_, ?_, ?_, ?_, ?_, h.tclean, h.tfresh, h.tmono⟩
  · intro w' hw'
    obtain ⟨w, hw, rfl⟩ := hmem w' hw'
    exact h.wload w hw
  · intro w' hw'
    obtain ⟨w, hw, rfl⟩ := hmem w' hw'
    exact h.wcap w hw
  · intro w' hw'
    obtain ⟨w, hw, rfl⟩ := hmem w' hw'
    have hb := h.wbusy w hw
    simp only [heartbeatStatus]
    split
    · split <;> simp
    · exact hb
  · intro w' hw'
    obtain ⟨w, hw, rfl⟩ := hmem w' hw'
    exact h.wfresh w hw
  · simp only [heartbeatTick]
    exact (List.pairwise_map.mpr (h.wnodup.imp_of_mem (by
      intro a b _ _ hab
      exact hab)))

lemma inv_enqueue {s : QState} (h : Inv s) (apiKeyId : Nat) (priority : Int) :
    Inv (enqueue s apiKeyId priority).1 := by
  refine inv_processQueue ⟨?_, ?_, ?_, ?_, ?_, ?_, ?_, ?_⟩
  · exact h.wload
  · exact h.wcap
  · exact h.wbusy
  · intro w hw
    exact Nat.lt_succ_of_lt (h.wfresh w hw)
  · exact h.wnodup
  · intro t ht
    rcases List.mem_append.mp ht with ht | ht
    · exact h.tclean t ht
    · rcases List.mem_singleton.mp ht with rfl
      exact ⟨rfl, rfl⟩
  · intro t ht
    rcases List.mem_append.mp ht with ht | ht
    · exact Nat.lt_succ_of_lt (h.tfresh t ht)
    · rcases List.mem_singleton.mp ht with rfl
      exact Nat.lt_succ_self _
  · refine List.pairwise_append.mpr ⟨h.tmono, List.pairwise_singleton _ _, ?_⟩
    intro a ha b hb
    rcases List.mem_singleton.mp hb with rfl
    exact h.tfresh a ha

/-- Every reachable state satisfies the master invariant. -/
theorem inv_reachable {s : QState} (h : Reachable s) : Inv s := by
  induction h with
  | init => exact inv_init
  | createWorkerStep s g _ ih => exact inv_createWorker ih g
  | removeWorkerStep s id _ ih => exact inv_removeWorker ih id
  | enqueueStep s apiKeyId priority _ ih => exact inv_enqueue ih apiKeyId priority
  | waitStep s taskId _ ih => exact inv_waitForCompletion ih taskId
  | completionStep s taskId workerId _ _ ih => exact inv_fireCompletionTimer ih taskId workerId
  | waiterTimeoutStep s taskId _ ih => exact inv_waiterTimeoutFire ih taskId
  | heartbeatStep s toggle _ ih => exact inv_heartbeatTick ih toggle
  | resolveStep s taskId result _ ih => exact inv_resolveTask ih taskId result
  | rejectStep s taskId error _ ih => exact inv_rejectTask ih taskId error

/-! ## Claim C1: scheduling after completion (Scenario E) -/

/-- Scenario E setup: a single online worker of `maxCapacity = 1`. -/
def scE0 : QState :=
  { workers := [{ id := 100, status := WStatus.online, currentLoad := 0, maxCapacity := 1 }],
    tasks := [], callbacks := [], timers := [], nextId := 0 }

/-- After the first `enqueue` (task 0 gets assigned and starts processing). -/
def scE1 : QState := (enqueue scE0 0 0).1

/-- After the second `enqueue` (no capacity left, task 1 stays pending). -/
def scE2 : QState := (enqueue scE1 0 0).1

/-- After the completion timer of task 0 fires (frees the worker). -/
def scE3 : QState := (fireCompletionTimer scE2 0 100).1

/-- After one more `enqueue` (task 2), whose scheduling pass finally picks
up task 1. -/
def scE4 : QState := (enqueue scE3 0 0).1

/-- C1, counterexample.  With a single online worker of `maxCapacity = 1`
and two enqueued tasks, exactly one task is assigned immediately and the
other is left pending — but after the first task completes and the worker's
load returns to 0, the second task is still `pending`, not assigned: no
scheduling pass runs on completion, refuting the claim that it is assigned
"without any further Enqueue call being needed". -/
theorem C1_counterexample :
    (getTask scE1 0).map (fun t => t.status) = some TStatus.processing ∧
    (getTask scE2 1).map (fun t => t.status) = some TStatus.pending ∧
    (getTask scE3 0).map (fun t => t.status) = some TStatus.completed ∧
    (getWorker scE3 100).map (fun w => w.currentLoad) = some 0 ∧
    (getTask scE3 1).map (fun t => t.status) = some TStatus.pending ∧
    (getTask scE3 1).map (fun t => t.status) ≠ some TStatus.assigned ∧
    (getTask scE3 1).map (fun t => t.status) ≠ some TStatus.processing := by
  decide

/-- C1, amended: a scheduling pass is triggered only by `enqueue`; a
completion that frees worker capacity does not trigger one.  With a single
online worker of `maxCapacity = 1` and two enqueued tasks, exactly one task
is assigned immediately; the other remains `pending` even after the first
completes and decrements the worker's load, and is only assigned when a
further `enqueue` call triggers the next scheduling pass. -/
theorem C1_amended :
    (getTask scE1 0).map (fun t => t.status) = some TStatus.processing ∧
    (getTask scE2 0).map (fun t => t.status) = some TStatus.processing ∧
    (getTask scE2 1).map (fun t => t.status) = some TStatus.pending ∧
    (getTask scE3 0).map (fun t => t.status) = some TStatus.completed ∧
    (getWorker scE3 100).map (fun w => w.currentLoad) = some 0 ∧
    (getTask scE3 1).map (fun t => t.status) = some TStatus.pending ∧
    (getTask scE4 1).map (fun t => t.status) = some TStatus.processing ∧
    (getTask scE4 1).map (fun t => t.assignedWorker) = some (some 100) := by
  decide

/-! ## Claim C2: result/error fields in terminal states -/

/-- A reachable failing run for C2: one worker (capacity 10). -/
def bugC2st0 : QState := (createWorker initState 0).1

/-- ... one enqueued task (id 1), immediately assigned and processing. -/
def bugC2st1 : QState := (enqueue bugC2st0 7 0).1

/-- ... after its completion timer fires: the task is `completed`. -/
def bugC2st2 : QState := (fireCompletionTimer bugC2st1 1 0).1

/-- C2, code bug.  In the reachable state `bugC2st2` the task has
`status = completed` but carries neither a stored `result` nor an `error`
(the completion callback updates only `status` and `completedAt`, and no
code path in the repository ever writes `task.result` or `task.error`), so
"exactly one of result/error is set in terminal states" fails; consequently
`waitForCompletion` on the already-completed task resolves with the unset
stored field (`undefined` in the source) instead of a result payload, even
though `waitForCompletion`'s completed-branch reads `task.result`
expecting one. -/
theorem C2_bug :
    Reachable bugC2st2 ∧
    (getTask bugC2st2 1).map (fun t => t.status) = some TStatus.completed ∧
    (getTask bugC2st2 1).map (fun t => t.result) = some none ∧
    (getTask bugC2st2 1).map (fun t => t.error) = some none ∧
    (waitForCompletion bugC2st2 1).2 = WaitOutcome.resolvedNow none := by
  refine ⟨?_, by decide⟩
  exact Reachable.completionStep bugC2st1 1 0
    (Reachable.enqueueStep bugC2st0 7 0 (Reachable.createWorkerStep initState 0 Reachable.init))
    (by decide)

/-! ## Claim C3: worker removed mid-flight (Scenario C) -/

/-- Scenario C setup: one worker (id 0, capacity 10). -/
def scC0 : QState := (createWorker initState 0).1

/-- ... task 1 enqueued, assigned to worker 0 and processing
(`currentLoad = 1`). -/
def scC1 : QState := (enqueue scC0 7 0).1

/-- ... a caller registers a completion waiter for task 1. -/
def scC2 : QState := (waitForCompletion scC1 1).1

/-- ... worker 0 is removed while task 1 is in flight. -/
def scC3 : QState := (removeWorker scC2 0).1

/-- ... then the completion timer of task 1 fires. -/
def scC4 : QState × Option Nat := fireCompletionTimer scC3 1 0

/-- C3, counterexample.  Worker 0 has `currentLoad = 1` with one
`processing` task assigned and a registered waiter; it is removed; when the
in-flight processing finishes, the task does NOT transition to `failed`
(there is no worker-lost finalization anywhere in the code) and the waiter
is NOT rejected: the task completes and the waiter is resolved with the
success payload. -/
theorem C3_counterexample :
    (getTask scC2 1).map (fun t => t.status) = some TStatus.processing ∧
    (getWorker scC2 0).map (fun w => w.currentLoad) = some 1 ∧
    (removeWorker scC2 0).2 = true ∧
    (getTask scC4.1 1).map (fun t => t.status) ≠ some TStatus.failed ∧
    (getTask scC4.1 1).map (fun t => t.error) = some none ∧
    scC4.2 ≠ none := by
  decide

/-- C3, amended.  Removing a worker with an in-flight `processing` task
does not fail the task: the simulated completion still finalizes it as
`completed` with no error recorded, the load decrement is skipped because
the worker lookup now misses (the registry is empty afterwards), and the
registered waiter is resolved with the success payload
`{ success: true, workerId }`, not rejected. -/
theorem C3_amended :
    (getTask scC2 1).map (fun t => t.status) = some TStatus.processing ∧
    (removeWorker scC2 0).2 = true ∧
    scC3.workers = [] ∧
    (getTask scC4.1 1).map (fun t => t.status) = some TStatus.completed ∧
    (getTask scC4.1 1).map (fun t => t.error) = some none ∧
    scC4.1.workers = [] ∧
    scC4.2 = some 0 ∧
    scC4.1.callbacks = [] := by
  decide

/-! ## Claim C4: effect of the task-rejection entry point -/

/-- A state with a `processing` task (id 1) assigned to worker 0
(`currentLoad = 1`) and a registered waiter for it. -/
def scRj : QState :=
  { workers := [{ id := 0, status := WStatus.online, currentLoad := 1, maxCapacity := 10 }],
    tasks := [{ id := 1, apiKeyId := 7, priority := 0, status := TStatus.processing,
                assignedWorker := some 0, result := none, error := none,
                createdAt := 1, startedAt := some 2, completedAt := none }],
    callbacks := [1], timers := [(1, 0)], nextId := 2 }

/-- C4, counterexample.  Invoking the task-rejection entry point
(`rejectTask`, the call made by `inference.ts` when the upstream call
errors) on a `processing` task rejects the registered waiter — but it does
NOT set the task's status to `failed`, does NOT record the error on the
task, and does NOT decrement the assigned worker's load, refuting the
claim. -/
theorem C4_counterexample :
    (rejectTask scRj 1 "NVIDIA API error").2 = some "NVIDIA API error" ∧
    (getTask (rejectTask scRj 1 "NVIDIA API error").1 1).map (fun t => t.status)
      ≠ some TStatus.failed ∧
    (getTask (rejectTask scRj 1 "NVIDIA API error").1 1).map (fun t => t.status)
      = some TStatus.processing ∧
    (getTask (rejectTask scRj 1 "NVIDIA API error").1 1).map (fun t => t.error)
      = some none ∧
    (getWorker (rejectTask scRj 1 "NVIDIA API error").1 0).map (fun w => w.currentLoad)
      = some 1 := by
  decide

/-- C4, amended.  When processing of an assigned task fails upstream, the
rejection entry point only affects the waiter registry: `rejectTask` rejects
and removes the registered waiter if one is present (and is a silent no-op
otherwise), while the task record (status, error), the worker loads, and the
armed timers are left entirely unchanged — no `failed` status, recorded
error, or load decrement happens anywhere on this path. -/
theorem C4_amended (s : QState) (taskId : Nat) (err : String) :
    (rejectTask s taskId err).1.tasks = s.tasks ∧
    (rejectTask s taskId err).1.workers = s.workers ∧
    (rejectTask s taskId err).1.timers = s.timers ∧
    ((rejectTask s taskId err).2 = if taskId ∈ s.callbacks then some err else none) ∧
    ((rejectTask s taskId err).1.callbacks =
      if taskId ∈ s.callbacks then s.callbacks.filter (fun c => c ≠ taskId)
      else s.callbacks) := by
  simp only [rejectTask]
  split
  · exact ⟨rfl, rfl, rfl, by simp_all, by simp_all⟩
  · exact ⟨rfl, rfl, rfl, by simp_all, by simp_all⟩

/-! ## Claim C5: the load invariant -/

/-- C5: in every reachable state every worker satisfies
`0 ≤ currentLoad ≤ maxCapacity`; moreover admission only ever offers the
scheduler workers with `currentLoad < maxCapacity` (the
`getAvailableWorkers` filter), so assignment increments never overshoot and
clamped completion decrements never go below zero. -/
theorem C5_loadInvariant (s : QState) (h : Reachable s) :
    (∀ w ∈ s.workers, 0 ≤ w.currentLoad ∧ w.currentLoad ≤ w.maxCapacity) ∧
    (∀ w ∈ getAvailableWorkers s, w.currentLoad < w.maxCapacity) := by
  refine ⟨fun w hw => (inv_reachable h).wload w hw, ?_⟩
  intro w hw
  simp only [getAvailableWorkers, List.mem_filter] at hw
  exact of_decide_eq_true hw.2

/-- A small reachable state exercising C5: one worker created, one task
enqueued (so the worker's load is 1). -/
def wit5st : QState := (enqueue (createWorker initState 0).1 0 0).1

/-- Witness for `C5_loadInvariant` at the concrete reachable state
`wit5st`. -/
theorem C5_loadInvariant_witness :
    (∀ w ∈ wit5st.workers, 0 ≤ w.currentLoad ∧ w.currentLoad ≤ w.maxCapacity) ∧
    (∀ w ∈ getAvailableWorkers wit5st, w.currentLoad < w.maxCapacity) :=
  C5_loadInvariant wit5st
    (Reachable.enqueueStep (createWorker initState 0).1 0 0
      (Reachable.createWorkerStep initState 0 Reachable.init))

/-! ## Claim C6: least-load selection (Scenario A) -/

/-- Scenario A worker: capacity 2, zero load (registered first). -/
def wCap2 : WorkerNode := { id := 1, status := WStatus.online, currentLoad := 0, maxCapacity := 2 }

/-- Scenario A worker: capacity 4, zero load (registered second). -/
def wCap4 : WorkerNode := { id := 2, status := WStatus.online, currentLoad := 0, maxCapacity := 4 }

/-- Scenario A worker: capacity 8, zero load (registered third). -/
def wCap8 : WorkerNode := { id := 3, status := WStatus.online, currentLoad := 0, maxCapacity := 8 }

/-- Scenario A registry: the three workers, no tasks. -/
def scA0 : QState :=
  { workers := [wCap2, wCap4, wCap8], tasks := [], callbacks := [], timers := [],
    nextId := 10 }

/-- Scenario A after enqueueing one `priority = 0` task (id 10). -/
def scA1 : QState := (enqueue scA0 0 0).1

/-- C6, counterexample.  With three zero-load online workers of capacities
[2,4,8] all load ratios tie at 0, and the stable sort breaks the tie in
favour of the FIRST worker in registry order: the task is assigned to the
capacity-2 worker (id 1), not to the capacity-8 worker (id 3) as the claim's
scenario asserts, and ties are broken by pool position, not by worker
identity. -/
theorem C6_counterexample :
    selectBestWorker [wCap2, wCap4, wCap8] = some wCap2 ∧
    wCap2.maxCapacity = 2 ∧
    wCap8.maxCapacity = 8 ∧
    (getTask scA1 10).map (fun t => t.assignedWorker) = some (some wCap2.id) ∧
    (getTask scA1 10).map (fun t => t.assignedWorker) ≠ some (some wCap8.id) := by
  decide

/-- C6, amended.  `selectBestWorker` returns the FIRST worker, in pool
(registry iteration) order, among those attaining the minimum
`currentLoad / maxCapacity` ratio: the selected worker occurs in the pool,
every worker strictly before it has a strictly larger ratio, and no worker
has a smaller one.  (With capacities [2,4,8] and zero loads the three ratios
tie at 0, so the first-registered, capacity-2 worker is chosen.) -/
theorem C6_amended (ws : List WorkerNode) (w : WorkerNode)
    (h : selectBestWorker ws = some w) :
    (∃ l1 l2, ws = l1 ++ w :: l2 ∧ ∀ v ∈ l1, loadRatio w < loadRatio v) ∧
    (∀ v ∈ ws, loadRatio w ≤ loadRatio v) := by
  unfold selectBestWorker at h
  rcases hs : sortByRatio ws with _ | ⟨h0, t0⟩
  · rw [hs] at h
    simp at h
  · rw [hs] at h
    simp only [List.head?_cons, Option.some.injEq] at h
    exact h ▸ sortByRatio_head_firstMin ws h0 t0 hs

/-- Witness for `C6_amended` at the Scenario A pool. -/
theorem C6_amended_witness :
    selectBestWorker [wCap2, wCap4, wCap8] = some wCap2 ∧
    ((∃ l1 l2, [wCap2, wCap4, wCap8] = l1 ++ wCap2 :: l2 ∧
        ∀ v ∈ l1, loadRatio wCap2 < loadRatio v) ∧
     (∀ v ∈ [wCap2, wCap4, wCap8], loadRatio wCap2 ≤ loadRatio v)) :=
  ⟨by decide, C6_amended [wCap2, wCap4, wCap8] wCap2 (by decide)⟩

/-! ## Claim C7: scheduling order (Scenario B) -/

/-- Scenario B, step 1: enqueue a task with priority 1 (id 0) — no workers
exist yet, so every pass is a no-op and the tasks accumulate as pending. -/
def scB0 : QState := (enqueue initState 0 1).1

/-- Scenario B, step 2: priority 5 (id 1). -/
def scB1 : QState := (enqueue scB0 0 5).1

/-- Scenario B, step 3: priority 1 (id 2). -/
def scB2 : QState := (enqueue scB1 0 1).1

/-- Scenario B, step 4: priority 3 (id 3). -/
def scB3 : QState := (enqueue scB2 0 3).1

/-- Scenario B, step 5: priority 1 (id 4). -/
def scB4 : QState := (enqueue scB3 0 1).1

/-- Scenario B: five workers (ids 5–9, capacity 10 each) give the next pass
sufficient capacity — one assignment per worker per pass. -/
def scB5 : QState := (createWorker scB4 0).1

/-- Scenario B: second worker (id 6). -/
def scB6 : QState := (createWorker scB5 0).1

/-- Scenario B: third worker (id 7). -/
def scB7 : QState := (createWorker scB6 0).1

/-- Scenario B: fourth worker (id 8). -/
def scB8 : QState := (createWorker scB7 0).1

/-- Scenario B: fifth worker (id 9). -/
def scB9 : QState := (createWorker scB8 0).1

/-- Scenario B: a sixth `enqueue` (priority 0, id 10) triggers the pass that
drains the five staged tasks. -/
def scB10 : QState := (enqueue scB9 0 0).1

/-- C7: in every reachable state a scheduling pass considers pending tasks
in `getPendingTasks` order, which is sorted by priority strictly descending
with ties in strictly increasing `createdAt` (= enqueue) order
(`schedRel`), and is a permutation of the pending tasks.  In Scenario B the
five staged tasks with priorities [1,5,1,3,1] are drained by one pass in
the order priority 5, priority 3, then the three priority-1 tasks in
enqueue order — visible in the round-robin pairing with the five workers
(ids 5,6,7,8,9 in pool order). -/
theorem C7_schedulingOrder (s : QState) (h : Reachable s) :
    ((getPendingTasks s).Pairwise schedRel ∧
     (getPendingTasks s).Perm (s.tasks.filter (fun t => t.status = TStatus.pending))) ∧
    ((getTask scB10 1).map (fun t => t.assignedWorker) = some (some 5) ∧
     (getTask scB10 3).map (fun t => t.assignedWorker) = some (some 6) ∧
     (getTask scB10 0).map (fun t => t.assignedWorker) = some (some 7) ∧
     (getTask scB10 2).map (fun t => t.assignedWorker) = some (some 8) ∧
     (getTask scB10 4).map (fun t => t.assignedWorker) = some (some 9) ∧
     (getTask scB10 10).map (fun t => t.status) = some TStatus.pending) := by
  refine ⟨⟨?_, sortByPriorityDesc_perm _⟩, by decide⟩
  exact sortByPriorityDesc_pairwise _
    ((inv_reachable h).tmono.sublist (List.filter_sublist _))

/-- Witness for `C7_schedulingOrder` at the (reachable) Scenario B state
`scB10`. -/
theorem C7_schedulingOrder_witness :
    ((getPendingTasks scB10).Pairwise schedRel ∧
     (getPendingTasks scB10).Perm
       (scB10.tasks.filter (fun t => t.status = TStatus.pending))) ∧
    ((getTask scB10 1).map (fun t => t.assignedWorker) = some (some 5) ∧
     (getTask scB10 3).map (fun t => t.assignedWorker) = some (some 6) ∧
     (getTask scB10 0).map (fun t => t.assignedWorker) = some (some 7) ∧
     (getTask scB10 2).map (fun t => t.assignedWorker) = some (some 8) ∧
     (getTask scB10 4).map (fun t => t.assignedWorker) = some (some 9) ∧
     (getTask scB10 10).map (fun t => t.status) = some TStatus.pending) :=
  C7_schedulingOrder scB10
    (Reachable.enqueueStep scB9 0 0
      (Reachable.createWorkerStep scB8 0
        (Reachable.createWorkerStep scB7 0
          (Reachable.createWorkerStep scB6 0
            (Reachable.createWorkerStep scB5 0
              (Reachable.createWorkerStep scB4 0
                (Reachable.enqueueStep scB3 0 1
                  (Reachable.enqueueStep scB2 0 3
                    (Reachable.enqueueStep scB1 0 1
                      (Reachable.enqueueStep scB0 0 5
                        (Reachable.enqueueStep initState 0 1 Reachable.init)))))))))))

/-! ## Claims C8/C9: the completion waiter registry -/

lemma not_mem_filter_ne_self (l : List Nat) (tid : Nat) :
    tid ∉ l.filter (fun c => c ≠ tid) := by
  simp

lemma resolveTask_snd_of_not_mem {s : QState} {tid : Nat}
    (h : tid ∉ s.callbacks) (v : Nat) : (resolveTask s tid v).2 = none := by
  simp only [resolveTask]
  rw [if_neg h]

lemma resolveTask_fst_of_not_mem {s : QState} {tid : Nat}
    (h : tid ∉ s.callbacks) (v : Nat) : (resolveTask s tid v).1 = s := by
  simp only [resolveTask]
  rw [if_neg h]

lemma rejectTask_snd_of_not_mem {s : QState} {tid : Nat}
    (h : tid ∉ s.callbacks) (e : String) : (rejectTask s tid e).2 = none := by
  simp only [rejectTask]
  rw [if_neg h]

lemma rejectTask_fst_of_not_mem {s : QState} {tid : Nat}
    (h : tid ∉ s.callbacks) (e : String) : (rejectTask s tid e).1 = s := by
  simp only [rejectTask]
  rw [if_neg h]

/-- If no waiter is registered for `tid`, the completion callback notifies
nobody (its `resolveTask` call is a silent no-op). -/
lemma completionCallback_snd_of_not_mem {s : QState} {tid : Nat}
    (h : tid ∉ s.callbacks) (wid : Nat) :
    (completionCallback s tid wid).2 = none := by
  simp only [completionCallback]
  rcases hg : getWorker (updateTask s tid (fun u =>
      { u with status := TStatus.completed, completedAt := some s.nextId })) wid
    with _ | uw
  · apply resolveTask_snd_of_not_mem ?_ wid
    exact h
  · apply resolveTask_snd_of_not_mem ?_ wid
    exact h

/-- C8: when the waiter-timeout timer fires, only the waiter registry
changes — the stored tasks, workers, armed completion timers and the clock
are untouched; the waiter (if still registered) is removed and its caller
rejected with the timeout error; afterwards no `resolveTask` and no later
completion callback for that task can reach the timed-out waiter (the task
may still complete, but its payload is never delivered to this caller). -/
theorem C8_timeoutFrame (s : QState) (tid wid v : Nat) :
    (waiterTimeoutFire s tid).1.tasks = s.tasks ∧
    (waiterTimeoutFire s tid).1.workers = s.workers ∧
    (waiterTimeoutFire s tid).1.timers = s.timers ∧
    (waiterTimeoutFire s tid).1.nextId = s.nextId ∧
    ((waiterTimeoutFire s tid).2 = true ↔ tid ∈ s.callbacks) ∧
    tid ∉ (waiterTimeoutFire s tid).1.callbacks ∧
    (resolveTask (waiterTimeoutFire s tid).1 tid v).2 = none ∧
    (fireCompletionTimer (waiterTimeoutFire s tid).1 tid wid).2 = none := by
  by_cases h : tid ∈ s.callbacks
  · have hW : waiterTimeoutFire s tid =
        ({ s with callbacks := s.callbacks.filter (fun c => c ≠ tid) }, true) := by
      simp only [waiterTimeoutFire, if_pos h]
    rw [hW]
    refine ⟨rfl, rfl, rfl, rfl, by simp [h], not_mem_filter_ne_self _ _, ?_, ?_⟩
    · exact resolveTask_snd_of_not_mem (not_mem_filter_ne_self _ _) v
    · apply completionCallback_snd_of_not_mem ?_ wid
      exact not_mem_filter_ne_self _ _
  · have hW : waiterTimeoutFire s tid = (s, false) := by
      simp only [waiterTimeoutFire, if_neg h]
    rw [hW]
    refine ⟨rfl, rfl, rfl, rfl, by simp [h], h, ?_, ?_⟩
    · exact resolveTask_snd_of_not_mem h v
    · apply completionCallback_snd_of_not_mem ?_ wid
      exact h

/-- C9: `resolveTask`/`rejectTask` invoke the registered continuation
exactly once and remove the entry when a waiter is present, and are silent
no-ops (no state change, nothing invoked) when none is registered; hence
any second `resolveTask`/`rejectTask` on the same taskId after a first call
is always a no-op. -/
theorem C9_waiterExactlyOnce (s : QState) (tid : Nat) (v v' : Nat) (e e' : String) :
    ((resolveTask s tid v).2 = if tid ∈ s.callbacks then some v else none) ∧
    ((rejectTask s tid e).2 = if tid ∈ s.callbacks then some e else none) ∧
    ((resolveTask s tid v).1 =
      if tid ∈ s.callbacks then
        { s with callbacks := s.callbacks.filter (fun c => c ≠ tid) }
      else s) ∧
    ((rejectTask s tid e).1 =
      if tid ∈ s.callbacks then
        { s with callbacks := s.callbacks.filter (fun c => c ≠ tid) }
      else s) ∧
    (resolveTask (resolveTask s tid v).1 tid v').2 = none ∧
    (resolveTask (resolveTask s tid v).1 tid v').1 = (resolveTask s tid v).1 ∧
    (rejectTask (resolveTask s tid v).1 tid e').2 = none ∧
    (resolveTask (rejectTask s tid e).1 tid v').2 = none ∧
    (rejectTask (rejectTask s tid e).1 tid e').2 = none ∧
    (rejectTask (rejectTask s tid e).1 tid e').1 = (rejectTask s tid e).1 := by
  have hres : tid ∉ (resolveTask s tid v).1.callbacks := by
    simp only [resolveTask]
    split
    · exact not_mem_filter_ne_self _ _
    · next h => exact h
  have hrej : tid ∉ (rejectTask s tid e).1.callbacks := by
    simp only [rejectTask]
    split
    · exact not_mem_filter_ne_self _ _
    · next h => exact h
  refine ⟨?_, ?_, ?_, ?_, resolveTask_snd_of_not_mem hres v',
    resolveTask_fst_of_not_mem hres v', rejectTask_snd_of_not_mem hres e',
    resolveTask_snd_of_not_mem hrej v', rejectTask_snd_of_not_mem hrej e',
    rejectTask_fst_of_not_mem hrej e'⟩
  · simp only [resolveTask]
    split <;> rfl
  · simp only [rejectTask]
    split <;> rfl
  · simp only [resolveTask]
    split <;> rfl
  · simp only [rejectTask]
    split <;> rfl

/-! ## Claim C10: no operation produces a `busy` worker -/

/-- C10: in every reachable state every worker's status is `online` or
`offline` — worker creation starts at `online`, the heartbeat tick only
toggles between `online` and `offline`, and the dispatcher touches only
`currentLoad` — so the `busy` count of `getWorkerStats` is always 0. -/
theorem C10_noBusy (s : QState) (h : Reachable s) :
    (∀ w ∈ s.workers, w.status = WStatus.online ∨ w.status = WStatus.offline) ∧
    (getWorkerStats s).busy = 0 := by
  have hb := (inv_reachable h).wbusy
  refine ⟨?_, ?_⟩
  · intro w hw
    cases hst : w.status
    · exact Or.inl rfl
    · exact Or.inr rfl
    · exact absurd hst (hb w hw)
  · simp only [getWorkerStats]
    rw [List.length_eq_zero]
    rw [List.filter_eq_nil_iff]
    intro w hw
    simp [hb w hw]

/-- A small reachable state exercising C10: one worker created, then one
heartbeat tick whose random draw toggles every worker (the created
`online` worker goes `offline`). -/
def wit10st : QState := heartbeatTick (createWorker initState 0).1 (fun _ => true)

/-- Witness for `C10_noBusy` at the concrete reachable state `wit10st`. -/
theorem C10_noBusy_witness :
    (∀ w ∈ wit10st.workers, w.status = WStatus.online ∨ w.status = WStatus.offline) ∧
    (getWorkerStats wit10st).busy = 0 :=
  C10_noBusy wit10st
    (Reachable.heartbeatStep (createWorker initState 0).1 (fun _ => true)
      (Reachable.createWorkerStep initState 0 Reachable.init))

end GpuCloud
